import Mathlib

/-!
Verification of the resilient email dispatch service.

Shallow embedding of `src/EmailService.js`: `RateLimiter`, `CircuitBreaker`,
`retryWithBackoff`, status tracking, and `EmailService.send`, together with
theorems checking the specification's claims about them.

Modelling conventions:
* JavaScript timestamps (`Date.now()`) are `Int` milliseconds; within one
  call every `Date.now()` read is abstracted to the same `now` parameter
  (none of the verified claims depends on intra-call clock advance).
* A provider's `sendEmail(email)` promise is modelled as a function of the
  email and of the invocation index inside one retry loop: `.error e`
  models a rejected promise (thrown error), `.ok r` a fulfilled one.
* `send` is parameterised by the retry configuration `(retries, delay)`;
  the source's defaults are `retries = 3`, `delay = 500`.
* Mutation is explicit state passing: each operation returns its result
  together with the updated state.
-/

/-- A delivery provider (the shape of `MockEmailProvider`): a name and the
behaviour of `sendEmail`, where `sendEmail email k` is the outcome of the
provider's `k`-th invocation within one retry loop. -/
structure Provider where
  name : String
  sendEmail : String → Nat → Except String String

/-- State of the `RateLimiter` class: `limit`, `interval` (ms) and the
recorded `timestamps`. -/
structure RateLimiter where
  limit : Nat
  interval : Int
  timestamps : List Int
  deriving DecidableEq

/-- `RateLimiter.allow()`: filter out timestamps with `now - ts >= interval`
(the source keeps `ts` iff `now - ts < interval`); if fewer than `limit`
remain, push `now` and admit, else reject without appending. Returns the
boolean together with the updated state. -/
def RateLimiter.allow (rl : RateLimiter) (now : Int) : Bool × RateLimiter :=
  let ts := rl.timestamps.filter fun t => now - t < rl.interval
  if ts.length < rl.limit then
    (true, { rl with timestamps := ts ++ [now] })
  else
    (false, { rl with timestamps := ts })

/-- State of the `CircuitBreaker` class: `failureThreshold`, `recoveryTime`
(ms), current `failures` count and `lastFailureTime`. -/
structure CircuitBreaker where
  failureThreshold : Nat
  recoveryTime : Int
  failures : Nat
  lastFailureTime : Int
  deriving DecidableEq

/-- The breaker state produced by `new CircuitBreaker()` with the source's
default arguments (`failureThreshold = 3`, `recoveryTime = 10000`). -/
def CircuitBreaker.init : CircuitBreaker := ⟨3, 10000, 0, 0⟩

/-- `CircuitBreaker.allow()`: block iff `failures >= failureThreshold` and
`now - lastFailureTime < recoveryTime`. Mutates nothing in the source, so it
returns only the boolean. -/
def CircuitBreaker.allow (cb : CircuitBreaker) (now : Int) : Bool :=
  if cb.failureThreshold ≤ cb.failures ∧ now - cb.lastFailureTime < cb.recoveryTime then
    false
  else
    true

/-- `CircuitBreaker.recordFailure()`: increment `failures`, stamp
`lastFailureTime = now`. -/
def CircuitBreaker.recordFailure (cb : CircuitBreaker) (now : Int) : CircuitBreaker :=
  { cb with failures := cb.failures + 1, lastFailureTime := now }

/-- `CircuitBreaker.reset()`: zero the failure count (nothing else). -/
def CircuitBreaker.reset (cb : CircuitBreaker) : CircuitBreaker :=
  { cb with failures := 0 }

deriving instance DecidableEq for Except

/-- Result of one `retryWithBackoff` run: the returned/thrown value
(`.ok none` models resolving with `undefined` when the loop body never
runs), the number of invocations of `fn`, and the list of backoff delays
slept between consecutive invocations, in order. -/
structure RetryResult (α : Type) where
  result : Except String (Option α)
  calls : Nat
  delays : List Int
  deriving DecidableEq

/-- Whether an `Except` value is an error. -/
def isErr : Except ε α → Bool
  | .error _ => true
  | .ok _ => false

/-- The `while (attempt < retries)` loop of `retryWithBackoff`, indexed by
the current `attempt` and by `fuel = (retries - attempt).toNat`, which is
exactly the number of loop iterations still admitted by the guard (so
`fuel = 0` iff the guard `attempt < retries` is false). On an error, the
source increments `attempt`, rethrows when `attempt >= retries` (here:
when the remaining fuel is zero), and otherwise sleeps
`delay * 2 ^ attempt` before the next iteration. -/
def retryGo (fn : Nat → Except String α) (delay : Int) : Nat → Nat → RetryResult α
  | _, 0 => ⟨.ok none, 0, []⟩
  | attempt, fuel + 1 =>
    match fn attempt with
    | .ok v => ⟨.ok (some v), 1, []⟩
    | .error e =>
      if fuel = 0 then
        ⟨.error e, 1, []⟩
      else
        let r := retryGo fn delay (attempt + 1) fuel
        ⟨r.result, r.calls + 1, delay * 2 ^ (attempt + 1) :: r.delays⟩

/-- `retryWithBackoff(fn, retries, delay)` (a method on `EmailService` in
the source, but it reads no instance state): start the loop at
`attempt = 0`. A nonpositive `retries` gives zero iterations. -/
def retryWithBackoff (fn : Nat → Except String α) (retries : Int) (delay : Int) : RetryResult α :=
  retryGo fn delay 0 retries.toNat

/-- State of the `EmailService` class. -/
structure EmailService where
  providers : List Provider
  rateLimiter : RateLimiter
  statusLog : List (String × String)
  sentEmails : List String
  circuitBreakers : List CircuitBreaker

/-- The `EmailService` constructor: stores the provider list unvalidated,
creates a `RateLimiter(5, 10000)`, empty status map and sent set, and one
default breaker per provider. The source performs no check on
`providers` (in particular an empty list is accepted). -/
def EmailService.init (providers : List Provider) : EmailService :=
  { providers := providers
    rateLimiter := ⟨5, 10000, []⟩
    statusLog := []
    sentEmails := []
    circuitBreakers := providers.map fun _ => CircuitBreaker.init }

/-- JavaScript `Set.prototype.add` on the `sentEmails` set (modelled as a
duplicate-free-by-use list): adding an element already present changes
nothing. -/
def addSent (l : List String) (id : String) : List String :=
  if id ∈ l then l else id :: l

/-- `trackStatus(id, status)`: overwrite the status map entry for `id`
(modelled by prepending, with lookup taking the most recent entry) and
return the status. -/
def EmailService.trackStatus (s : EmailService) (id status : String) : String × EmailService :=
  (status, { s with statusLog := (id, status) :: s.statusLog })

/-- `getStatus(id)`: most recent status recorded for `id`, if any. -/
def EmailService.getStatus (s : EmailService) (id : String) : Option String :=
  (s.statusLog.find? fun e => e.1 == id).map fun e => e.2

/-- Result of the provider fallback loop of `send`: the name of the
successful provider (if any), the updated breaker list, and the number of
`sendEmail` invocations per provider position. -/
structure TryResult where
  outcome : Option String
  breakers : List CircuitBreaker
  calls : List Nat

/-- The `for` loop of `send` over `(providers[i], circuitBreakers[i])`
pairs: skip a provider whose breaker disallows; otherwise run
`retryWithBackoff` on its `sendEmail`; on success reset that breaker and
stop; on exhausted retries record a failure on that breaker and continue.
The `_ :: _, []` case is unreachable for states built by the constructor
(which creates one breaker per provider). -/
def tryProviders (email : String) (now retries delay : Int) :
    List Provider → List CircuitBreaker → TryResult
  | [], cbs => ⟨none, cbs, []⟩
  | _ :: _, [] => ⟨none, [], []⟩
  | p :: ps, cb :: cbs =>
    if cb.allow now then
      let rr := retryWithBackoff (p.sendEmail email) retries delay
      match rr.result with
      | .ok _ => ⟨some p.name, cb.reset :: cbs, rr.calls :: ps.map fun _ => 0⟩
      | .error _ =>
        let r := tryProviders email now retries delay ps cbs
        ⟨r.outcome, cb.recordFailure now :: r.breakers, rr.calls :: r.calls⟩
    else
      let r := tryProviders email now retries delay ps cbs
      ⟨r.outcome, cb :: r.breakers, 0 :: r.calls⟩

/-- Result of one `send` call: the returned status string, the updated
service state, and the number of provider invocations per provider
position. -/
structure SendResult where
  status : String
  service : EmailService
  calls : List Nat

/-- `EmailService.send(email, id)`: consult the rate limiter (which
mutates its window even when the call is later found to be a duplicate),
then the idempotency set, then run the provider fallback loop; every path
returns through `trackStatus`. On success the id is added to `sentEmails`
and the successful provider's breaker is reset. The source's defaults for
the retry configuration are `retries = 3`, `delay = 500`. -/
def EmailService.send (s : EmailService) (email id : String) (now retries delay : Int) :
    SendResult :=
  let ar := s.rateLimiter.allow now
  let s1 := { s with rateLimiter := ar.2 }
  if ar.1 = false then
    let tr := s1.trackStatus id "Rate limited"
    ⟨tr.1, tr.2, s1.providers.map fun _ => 0⟩
  else if id ∈ s1.sentEmails then
    let tr := s1.trackStatus id "Duplicate skipped"
    ⟨tr.1, tr.2, s1.providers.map fun _ => 0⟩
  else
    let r := tryProviders email now retries delay s1.providers s1.circuitBreakers
    match r.outcome with
    | some nm =>
      let s2 := { s1 with circuitBreakers := r.breakers,
                          sentEmails := addSent s1.sentEmails id }
      let tr := s2.trackStatus id ("Sent via " ++ nm)
      ⟨tr.1, tr.2, r.calls⟩
    | none =>
      let s2 := { s1 with circuitBreakers := r.breakers }
      let tr := s2.trackStatus id "All providers failed"
      ⟨tr.1, tr.2, r.calls⟩

/-- The arguments of one `send` call, for sequencing calls. -/
structure SendCall where
  email : String
  id : String
  now : Int
  retries : Int
  delay : Int

/-- Run a sequence of `send` calls, threading the service state. -/
def runSends (s : EmailService) (ops : List SendCall) : EmailService :=
  ops.foldl (fun st c => (st.send c.email c.id c.now c.retries c.delay).service) s

/-- Run a sequence of `allow()` calls on a rate limiter at the given
times, collecting the returned booleans. -/
def runAllows : RateLimiter → List Int → List Bool
  | _, [] => []
  | rl, t :: ts => (rl.allow t).1 :: runAllows (rl.allow t).2 ts

/-- Modelled from the spec: the claimed pruning rule of `RateLimiter.allow`
read literally — drop exactly the timestamps strictly older than
`now - interval`, then admit iff fewer than `limit` remain. This exists
only to compare the claim's wording against the source's
`RateLimiter.allow`, which also drops a timestamp exactly `interval` old. -/
def RateLimiter.allowClaimed (rl : RateLimiter) (now : Int) : Bool × RateLimiter :=
  let ts := rl.timestamps.filter fun t => ¬ t < now - rl.interval
  if ts.length < rl.limit then
    (true, { rl with timestamps := ts ++ [now] })
  else
    (false, { rl with timestamps := ts })

/-- How one pass of the fallback loop transforms the breaker of a provider
that does not end the loop: a failure is recorded iff the breaker admitted
the attempt. -/
def stepBreaker (now : Int) (cb : CircuitBreaker) : CircuitBreaker :=
  if cb.allow now then cb.recordFailure now else cb

/-- The breaker admitted the attempt and every retried invocation failed. -/
def triedAndFailed (email : String) (now retries delay : Int)
    (p : Provider) (cb : CircuitBreaker) : Prop :=
  cb.allow now = true ∧
    isErr (retryWithBackoff (p.sendEmail email) retries delay).result = true

/-- A provider position that does not end the fallback loop: either its
breaker disallowed (skip), or the attempt was made and exhausted its
retries. -/
def skippedOrFailed (email : String) (now retries delay : Int)
    (p : Provider) (cb : CircuitBreaker) : Prop :=
  cb.allow now = false ∨ triedAndFailed email now retries delay p cb

instance (email : String) (now retries delay : Int) (p : Provider) (cb : CircuitBreaker) :
    Decidable (triedAndFailed email now retries delay p cb) := by
  unfold triedAndFailed
  exact inferInstance

instance (email : String) (now retries delay : Int) (p : Provider) (cb : CircuitBreaker) :
    Decidable (skippedOrFailed email now retries delay p cb) := by
  unfold skippedOrFailed
  exact inferInstance

/-- Number of `sendEmail` invocations a non-winning provider position
receives in one pass of the fallback loop. -/
def callsOf (email : String) (now retries delay : Int)
    (p : Provider) (cb : CircuitBreaker) : Nat :=
  if cb.allow now then (retryWithBackoff (p.sendEmail email) retries delay).calls else 0

/-- Sample provider that throws on every invocation. -/
def provA : Provider := ⟨"A", fun _ _ => .error "A failed"⟩

/-- Sample provider that succeeds on every invocation. -/
def provB : Provider := ⟨"B", fun _ _ => .ok "delivered"⟩

/-- Sample service with the single always-succeeding provider. -/
def svcB : EmailService := EmailService.init [provB]

/-- Sample service with an always-failing then an always-succeeding
provider. -/
def svcAB : EmailService := EmailService.init [provA, provB]

/-- Sample service whose id `"i"` has already been sent. -/
def svcDup : EmailService := { EmailService.init [provB] with sentEmails := ["i"] }

/-! ## General helper lemmas -/

theorem isErr_true_iff {ε α : Type} (r : Except ε α) : isErr r = true ↔ ∃ e, r = .error e := by
  cases r <;> simp [isErr]

theorem isErr_false_iff {ε α : Type} (r : Except ε α) : isErr r = false ↔ ∃ v, r = .ok v := by
  cases r <;> simp [isErr]

theorem sentVia_ne_rate (nm : String) : "Sent via " ++ nm ≠ "Rate limited" := by
  intro h
  have h3 := congrArg String.data h
  rw [String.data_append] at h3
  have h4 : 'S' :: ("ent via ".data ++ nm.data) = 'R' :: "ate limited".data := h3
  injection h4 with h5 _
  exact absurd h5 (by decide)

theorem sentVia_ne_failed (nm : String) : "Sent via " ++ nm ≠ "All providers failed" := by
  intro h
  have h3 := congrArg String.data h
  rw [String.data_append] at h3
  have h4 : 'S' :: ("ent via ".data ++ nm.data) = 'A' :: "ll providers failed".data := h3
  injection h4 with h5 _
  exact absurd h5 (by decide)

/-! ## RateLimiter characterization -/

theorem RateLimiter.allow_eq (rl : RateLimiter) (now : Int) :
    rl.allow now =
      (decide ((rl.timestamps.filter fun t => now - t < rl.interval).length < rl.limit),
       { rl with timestamps :=
          if (rl.timestamps.filter fun t => now - t < rl.interval).length < rl.limit then
            (rl.timestamps.filter fun t => now - t < rl.interval) ++ [now]
          else
            rl.timestamps.filter fun t => now - t < rl.interval }) := by
  simp only [RateLimiter.allow]
  split
  next h => simp [h]
  next h => simp [h]

/-! ## Branch equations for `tryProviders` and `send` -/

theorem tryProviders_skip (email : String) (now retries delay : Int)
    (p : Provider) (cb : CircuitBreaker) (ps : List Provider) (cbs : List CircuitBreaker)
    (hcb : cb.allow now = false) :
    tryProviders email now retries delay (p :: ps) (cb :: cbs) =
      ⟨(tryProviders email now retries delay ps cbs).outcome,
       cb :: (tryProviders email now retries delay ps cbs).breakers,
       0 :: (tryProviders email now retries delay ps cbs).calls⟩ := by
  simp [tryProviders, hcb]

theorem tryProviders_ok (email : String) (now retries delay : Int)
    (p : Provider) (cb : CircuitBreaker) (ps : List Provider) (cbs : List CircuitBreaker)
    (v : Option String)
    (hcb : cb.allow now = true)
    (hres : (retryWithBackoff (p.sendEmail email) retries delay).result = .ok v) :
    tryProviders email now retries delay (p :: ps) (cb :: cbs) =
      ⟨some p.name, cb.reset :: cbs,
       (retryWithBackoff (p.sendEmail email) retries delay).calls :: ps.map fun _ => 0⟩ := by
  simp [tryProviders, hcb, hres]

theorem tryProviders_err (email : String) (now retries delay : Int)
    (p : Provider) (cb : CircuitBreaker) (ps : List Provider) (cbs : List CircuitBreaker)
    (e : String)
    (hcb : cb.allow now = true)
    (hres : (retryWithBackoff (p.sendEmail email) retries delay).result = .error e) :
    tryProviders email now retries delay (p :: ps) (cb :: cbs) =
      ⟨(tryProviders email now retries delay ps cbs).outcome,
       cb.recordFailure now :: (tryProviders email now retries delay ps cbs).breakers,
       (retryWithBackoff (p.sendEmail email) retries delay).calls ::
         (tryProviders email now retries delay ps cbs).calls⟩ := by
  simp [tryProviders, hcb, hres]

theorem tryProviders_outcome_names (email : String) (now retries delay : Int) (nm : String) :
    ∀ (ps : List Provider) (cbs : List CircuitBreaker),
      (tryProviders email now retries delay ps cbs).outcome = some nm →
      ∃ p ∈ ps, nm = p.name := by
  intro ps
  induction ps with
  | nil => intro cbs h; simp [tryProviders] at h
  | cons p ps ih =>
    intro cbs h
    cases cbs with
    | nil => simp [tryProviders] at h
    | cons cb cbs =>
      by_cases hcb : cb.allow now = true
      · rcases hres : (retryWithBackoff (p.sendEmail email) retries delay).result with e | v
        · rw [tryProviders_err email now retries delay p cb ps cbs e hcb hres] at h
          obtain ⟨q, hq, hnm⟩ := ih cbs h
          exact ⟨q, List.mem_cons_of_mem p hq, hnm⟩
        · rw [tryProviders_ok email now retries delay p cb ps cbs v hcb hres] at h
          exact ⟨p, List.mem_cons_self p ps, by simpa using h.symm⟩
      · rw [tryProviders_skip email now retries delay p cb ps cbs (by simpa using hcb)] at h
        obtain ⟨q, hq, hnm⟩ := ih cbs h
        exact ⟨q, List.mem_cons_of_mem p hq, hnm⟩

theorem send_eq_rate (s : EmailService) (email id : String) (now retries delay : Int)
    (h : (s.rateLimiter.allow now).1 = false) :
    s.send email id now retries delay =
      ⟨"Rate limited",
       { s with rateLimiter := (s.rateLimiter.allow now).2,
                statusLog := (id, "Rate limited") :: s.statusLog },
       s.providers.map fun _ => 0⟩ := by
  simp [EmailService.send, EmailService.trackStatus, h]

theorem send_eq_dup (s : EmailService) (email id : String) (now retries delay : Int)
    (h1 : (s.rateLimiter.allow now).1 = true) (h2 : id ∈ s.sentEmails) :
    s.send email id now retries delay =
      ⟨"Duplicate skipped",
       { s with rateLimiter := (s.rateLimiter.allow now).2,
                statusLog := (id, "Duplicate skipped") :: s.statusLog },
       s.providers.map fun _ => 0⟩ := by
  simp [EmailService.send, EmailService.trackStatus, h1, h2]

theorem send_eq_sent (s : EmailService) (email id : String) (now retries delay : Int)
    (nm : String)
    (h1 : (s.rateLimiter.allow now).1 = true) (h2 : id ∉ s.sentEmails)
    (h3 : (tryProviders email now retries delay s.providers s.circuitBreakers).outcome
            = some nm) :
    s.send email id now retries delay =
      ⟨"Sent via " ++ nm,
       { s with rateLimiter := (s.rateLimiter.allow now).2,
                sentEmails := id :: s.sentEmails,
                circuitBreakers :=
                  (tryProviders email now retries delay s.providers s.circuitBreakers).breakers,
                statusLog := (id, "Sent via " ++ nm) :: s.statusLog },
       (tryProviders email now retries delay s.providers s.circuitBreakers).calls⟩ := by
  simp [EmailService.send, EmailService.trackStatus, addSent, h1, h2, h3]

theorem send_eq_allFailed (s : EmailService) (email id : String) (now retries delay : Int)
    (h1 : (s.rateLimiter.allow now).1 = true) (h2 : id ∉ s.sentEmails)
    (h3 : (tryProviders email now retries delay s.providers s.circuitBreakers).outcome
            = none) :
    s.send email id now retries delay =
      ⟨"All providers failed",
       { s with rateLimiter := (s.rateLimiter.allow now).2,
                circuitBreakers :=
                  (tryProviders email now retries delay s.providers s.circuitBreakers).breakers,
                statusLog := (id, "All providers failed") :: s.statusLog },
       (tryProviders email now retries delay s.providers s.circuitBreakers).calls⟩ := by
  simp [EmailService.send, EmailService.trackStatus, h1, h2, h3]

theorem getStatus_cons_self (s : EmailService) (id st : String)
    (l : List (String × String)) (h : s.statusLog = (id, st) :: l) :
    s.getStatus id = some st := by
  simp [EmailService.getStatus, h, List.find?]

/-! ## Monotonicity of the idempotency set -/

theorem addSent_mem (l : List String) (a id : String) (h : a ∈ l) : a ∈ addSent l id := by
  unfold addSent
  split
  · exact h
  · exact List.mem_cons_of_mem id h

theorem addSent_self (l : List String) (id : String) : id ∈ addSent l id := by
  unfold addSent
  split
  next h => exact h
  next h => exact List.mem_cons_self id l

theorem send_sent_mono (s : EmailService) (email id : String) (now retries delay : Int)
    (x : String) (hx : x ∈ s.sentEmails) :
    x ∈ (s.send email id now retries delay).service.sentEmails := by
  cases hb : (s.rateLimiter.allow now).1 with
  | false =>
    rw [send_eq_rate s email id now retries delay hb]
    exact hx
  | true =>
    by_cases hid : id ∈ s.sentEmails
    · rw [send_eq_dup s email id now retries delay hb hid]
      exact hx
    · cases ho : (tryProviders email now retries delay s.providers s.circuitBreakers).outcome with
      | some nm =>
        rw [send_eq_sent s email id now retries delay nm hb hid ho]
        exact List.mem_cons_of_mem id hx
      | none =>
        rw [send_eq_allFailed s email id now retries delay hb hid ho]
        exact hx

theorem runSends_sent_mono (x : String) :
    ∀ (ops : List SendCall) (s : EmailService),
      x ∈ s.sentEmails → x ∈ (runSends s ops).sentEmails := by
  intro ops
  induction ops with
  | nil => intro s h; exact h
  | cons c ops ih =>
    intro s h
    have hstep : runSends s (c :: ops) =
        runSends (s.send c.email c.id c.now c.retries c.delay).service ops := by
      simp [runSends]
    rw [hstep]
    exact ih _ (send_sent_mono s c.email c.id c.now c.retries c.delay x h)

theorem send_success_mem (s : EmailService) (email id : String) (now retries delay : Int)
    (nm : String)
    (hsucc : (s.send email id now retries delay).status = "Sent via " ++ nm) :
    id ∈ (s.send email id now retries delay).service.sentEmails := by
  cases hb : (s.rateLimiter.allow now).1 with
  | false =>
    rw [send_eq_rate s email id now retries delay hb] at hsucc
    have h' : "Rate limited" = "Sent via " ++ nm := hsucc
    exact absurd h'.symm (sentVia_ne_rate nm)
  | true =>
    by_cases hid : id ∈ s.sentEmails
    · rw [send_eq_dup s email id now retries delay hb hid]
      exact hid
    · cases ho : (tryProviders email now retries delay s.providers s.circuitBreakers).outcome with
      | some nm' =>
        rw [send_eq_sent s email id now retries delay nm' hb hid ho]
        exact List.mem_cons_self id s.sentEmails
      | none =>
        rw [send_eq_allFailed s email id now retries delay hb hid ho] at hsucc
        have h' : "All providers failed" = "Sent via " ++ nm := hsucc
        exact absurd h'.symm (sentVia_ne_failed nm)

/-! ## The retry loop -/

theorem retryGo_ok_step {α : Type} (fn : Nat → Except String α) (delay : Int)
    (attempt f : Nat) (v : α) (hf : fn attempt = .ok v) :
    retryGo fn delay attempt (f + 1) = ⟨.ok (some v), 1, []⟩ := by
  conv_lhs => rw [retryGo]
  rw [hf]

theorem retryGo_err_last {α : Type} (fn : Nat → Except String α) (delay : Int)
    (attempt : Nat) (e : String) (hf : fn attempt = .error e) :
    retryGo fn delay attempt 1 = ⟨.error e, 1, []⟩ := by
  conv_lhs => rw [retryGo]
  rw [hf]
  simp

theorem retryGo_err_step {α : Type} (fn : Nat → Except String α) (delay : Int)
    (attempt f : Nat) (e : String) (hf : fn attempt = .error e) (h0 : f ≠ 0) :
    retryGo fn delay attempt (f + 1) =
      ⟨(retryGo fn delay (attempt + 1) f).result,
       (retryGo fn delay (attempt + 1) f).calls + 1,
       delay * 2 ^ (attempt + 1) :: (retryGo fn delay (attempt + 1) f).delays⟩ := by
  conv_lhs => rw [retryGo]
  rw [hf]
  simp [h0]

theorem retryGo_calls_le {α : Type} (fn : Nat → Except String α) (delay : Int) :
    ∀ (fuel attempt : Nat), (retryGo fn delay attempt fuel).calls ≤ fuel := by
  intro fuel
  induction fuel with
  | zero => intro attempt; simp [retryGo]
  | succ f ih =>
    intro attempt
    rcases hf : fn attempt with e | v
    · by_cases h0 : f = 0
      · subst h0
        rw [retryGo_err_last fn delay attempt e hf]
      · have := ih (attempt + 1)
        rw [retryGo_err_step fn delay attempt f e hf h0]
        simpa using Nat.succ_le_succ this
    · rw [retryGo_ok_step fn delay attempt f v hf]
      simp

theorem retryGo_success {α : Type} (fn : Nat → Except String α) (delay : Int) (v : α) :
    ∀ (j attempt fuel : Nat), j < fuel →
      (∀ i, i < j → isErr (fn (attempt + i)) = true) →
      fn (attempt + j) = .ok v →
      retryGo fn delay attempt fuel =
        ⟨.ok (some v), j + 1, (List.range j).map fun k => delay * 2 ^ (attempt + k + 1)⟩ := by
  intro j
  induction j with
  | zero =>
    intro attempt fuel hj hpre hok
    cases fuel with
    | zero => omega
    | succ f =>
      rw [Nat.add_zero] at hok
      simp [retryGo, hok]
  | succ j ih =>
    intro attempt fuel hj hpre hok
    cases fuel with
    | zero => omega
    | succ f =>
      have h0 : isErr (fn (attempt + 0)) = true := hpre 0 (Nat.succ_pos j)
      rw [Nat.add_zero] at h0
      obtain ⟨e, he⟩ := (isErr_true_iff (fn attempt)).mp h0
      have hf0 : f ≠ 0 := by omega
      have hrec := ih (attempt + 1) f (by omega)
        (fun i hi => by
          have hh := hpre (i + 1) (by omega)
          rwa [show attempt + (i + 1) = attempt + 1 + i by omega] at hh)
        (by rwa [show attempt + (j + 1) = attempt + 1 + j by omega] at hok)
      rw [retryGo_err_step fn delay attempt f e he hf0, hrec]
      simp only [List.range_succ_eq_map, List.map_cons, List.map_map]
      refine congrArg (RetryResult.mk (.ok (some v)) (j + 1 + 1)) ?_
      refine congrArg (fun l => delay * 2 ^ (attempt + 1) :: l) ?_
      refine List.map_congr_left fun k _ => ?_
      simp only [Function.comp]
      congr 2
      omega

theorem retryGo_all_fail {α : Type} (fn : Nat → Except String α) (delay : Int) :
    ∀ (fuel attempt : Nat), 1 ≤ fuel →
      (∀ i, i < fuel → isErr (fn (attempt + i)) = true) →
      ∃ e, fn (attempt + (fuel - 1)) = .error e ∧
        retryGo fn delay attempt fuel =
          ⟨.error e, fuel, (List.range (fuel - 1)).map fun k => delay * 2 ^ (attempt + k + 1)⟩ := by
  intro fuel
  induction fuel with
  | zero => intro attempt h; omega
  | succ f ih =>
    intro attempt _ hall
    have h0 : isErr (fn (attempt + 0)) = true := hall 0 (by omega)
    rw [Nat.add_zero] at h0
    obtain ⟨e0, he0⟩ := (isErr_true_iff (fn attempt)).mp h0
    cases f with
    | zero =>
      exact ⟨e0, by simpa using he0, by rw [retryGo_err_last fn delay attempt e0 he0]; simp⟩
    | succ f' =>
      obtain ⟨e, he, hrec⟩ := ih (attempt + 1) (by omega)
        (fun i hi => by
          have hh := hall (i + 1) (by omega)
          rwa [show attempt + (i + 1) = attempt + 1 + i by omega] at hh)
      refine ⟨e, ?_, ?_⟩
      · rwa [show attempt + (f' + 1 + 1 - 1) = attempt + 1 + (f' + 1 - 1) by omega]
      · rw [retryGo_err_step fn delay attempt (f' + 1) e0 he0 (Nat.succ_ne_zero f'), hrec]
        simp only [Nat.add_sub_cancel, List.range_succ_eq_map, List.map_cons, List.map_map]
        refine congrArg (RetryResult.mk (.error e) (f' + 1 + 1)) ?_
        refine congrArg (fun l => delay * 2 ^ (attempt + 1) :: l) ?_
        refine List.map_congr_left fun k _ => ?_
        simp only [Function.comp]
        congr 2
        omega

theorem retryGo_delays_shape {α : Type} (fn : Nat → Except String α) (delay : Int) :
    ∀ (fuel attempt : Nat), ∃ m,
      (retryGo fn delay attempt fuel).delays =
        (List.range m).map fun k => delay * 2 ^ (attempt + k + 1) := by
  intro fuel
  induction fuel with
  | zero => intro attempt; exact ⟨0, by simp [retryGo]⟩
  | succ f ih =>
    intro attempt
    rcases hf : fn attempt with e | v
    · by_cases h0 : f = 0
      · subst h0
        exact ⟨0, by rw [retryGo_err_last fn delay attempt e hf]; simp⟩
      · obtain ⟨m, hm⟩ := ih (attempt + 1)
        refine ⟨m + 1, ?_⟩
        rw [retryGo_err_step fn delay attempt f e hf h0]
        simp only
        rw [hm]
        simp only [List.range_succ_eq_map, List.map_cons, List.map_map]
        refine congrArg (fun l => delay * 2 ^ (attempt + 1) :: l) ?_
        refine List.map_congr_left fun k _ => ?_
        simp only [Function.comp]
        congr 2
        omega
    · exact ⟨0, by rw [retryGo_ok_step fn delay attempt f v hf]; simp⟩

/-! ## The fallback loop: first success wins -/

theorem tryProviders_first_success (email : String) (now retries delay : Int) :
    ∀ (pre : List (Provider × CircuitBreaker)) (p : Provider) (cb : CircuitBreaker)
      (post : List Provider) (cbs2 : List CircuitBreaker),
      (∀ pc ∈ pre, skippedOrFailed email now retries delay pc.1 pc.2) →
      cb.allow now = true →
      isErr (retryWithBackoff (p.sendEmail email) retries delay).result = false →
      tryProviders email now retries delay
          (pre.map Prod.fst ++ p :: post) (pre.map Prod.snd ++ cb :: cbs2) =
        ⟨some p.name,
         pre.map (fun pc => stepBreaker now pc.2) ++ cb.reset :: cbs2,
         pre.map (fun pc => callsOf email now retries delay pc.1 pc.2) ++
           (retryWithBackoff (p.sendEmail email) retries delay).calls :: post.map fun _ => 0⟩ := by
  intro pre
  induction pre with
  | nil =>
    intro p cb post cbs2 hpre hcb hok
    obtain ⟨v, hv⟩ := (isErr_false_iff _).mp hok
    simpa using tryProviders_ok email now retries delay p cb post cbs2 v hcb hv
  | cons qc pre ih =>
    intro p cb post cbs2 hpre hcb hok
    have hq := hpre qc (List.mem_cons_self qc pre)
    have hrest : ∀ pc ∈ pre, skippedOrFailed email now retries delay pc.1 pc.2 :=
      fun pc hpc => hpre pc (List.mem_cons_of_mem qc hpc)
    have hih := ih p cb post cbs2 hrest hcb hok
    rcases hq with hskip | ⟨hallow, herr⟩
    · simp only [List.map_cons, List.cons_append]
      rw [tryProviders_skip email now retries delay qc.1 qc.2 _ _ hskip, hih]
      simp [stepBreaker, callsOf, hskip]
    · obtain ⟨e, he⟩ := (isErr_true_iff _).mp herr
      simp only [List.map_cons, List.cons_append]
      rw [tryProviders_err email now retries delay qc.1 qc.2 _ _ e hallow he, hih]
      simp [stepBreaker, callsOf, hallow]

/-! ## The rate limiter over a sequence of calls inside one window -/

theorem runAllows_invariant (N : Nat) (W : Int) :
    ∀ (times ts0 : List Int),
      (∀ s ∈ ts0, ∀ t ∈ times, t - s < W) →
      (∀ a ∈ times, ∀ b ∈ times, a - b < W) →
      runAllows ⟨N, W, ts0⟩ times =
        (List.range times.length).map fun k => decide (ts0.length + k < N) := by
  intro times
  induction times with
  | nil => intro ts0 h1 h2; simp [runAllows]
  | cons t rest ih =>
    intro ts0 h1 h2
    have hfilter : (ts0.filter fun s => t - s < W) = ts0 := by
      rw [List.filter_eq_self]
      intro a ha
      simpa using h1 a ha t (List.mem_cons_self t rest)
    have h2' : ∀ a ∈ rest, ∀ b ∈ rest, a - b < W := fun a ha b hb =>
      h2 a (List.mem_cons_of_mem t ha) b (List.mem_cons_of_mem t hb)
    by_cases hN : ts0.length < N
    · have hcall : (⟨N, W, ts0⟩ : RateLimiter).allow t = (true, ⟨N, W, ts0 ++ [t]⟩) := by
        rw [RateLimiter.allow_eq]
        simp [hfilter, hN]
      have h1' : ∀ s ∈ ts0 ++ [t], ∀ r ∈ rest, r - s < W := by
        intro s hs r hr
        rcases List.mem_append.mp hs with hs | hs
        · exact h1 s hs r (List.mem_cons_of_mem t hr)
        · have hst : s = t := by simpa using hs
          subst hst
          exact h2 r (List.mem_cons_of_mem s hr) s (List.mem_cons_self s rest)
      simp only [runAllows, hcall]
      rw [ih (ts0 ++ [t]) h1' h2']
      simp only [List.length_append, List.length_singleton, List.length_cons,
        List.length_nil, List.range_succ_eq_map, List.map_cons, List.map_map]
      congr 1
      · exact (decide_eq_true (by omega)).symm
      · refine List.map_congr_left fun k _ => ?_
        simp only [Function.comp, decide_eq_decide]
        omega
    · have hcall : (⟨N, W, ts0⟩ : RateLimiter).allow t = (false, ⟨N, W, ts0⟩) := by
        rw [RateLimiter.allow_eq]
        simp [hfilter, hN]
      have h1' : ∀ s ∈ ts0, ∀ r ∈ rest, r - s < W := fun s hs r hr =>
        h1 s hs r (List.mem_cons_of_mem t hr)
      simp only [runAllows, hcall]
      rw [ih ts0 h1' h2']
      simp only [List.length_cons, List.range_succ_eq_map, List.map_cons, List.map_map]
      congr 1
      · exact (decide_eq_false (by omega)).symm
      · refine List.map_congr_left fun k _ => ?_
        simp only [Function.comp, decide_eq_decide]
        omega

theorem delays_chain_lt (delay : Int) (hd : 0 < delay) (attempt m : Nat) :
    ((List.range m).map fun k => delay * 2 ^ (attempt + k + 1)).Chain' (· < ·) := by
  refine List.Pairwise.chain' (List.Pairwise.map _ (fun a b hab => ?_) (List.pairwise_lt_range m))
  have hpow : (2 : Int) ^ (attempt + a + 1) < 2 ^ (attempt + b + 1) := by
    apply pow_lt_pow_right₀ (by norm_num) (by omega)
  exact mul_lt_mul_of_pos_left hpow hd

/-! ## Claims -/

/-- C4: `CircuitBreaker.allow()` returns `false` exactly when the failure
count is at least the threshold and the elapsed time since the last
recorded failure is strictly less than the cooldown; once the cooldown has
elapsed it returns `true` regardless of how large the failure count is;
the failure count is never decreased by `recordFailure` (which increments
it) nor by the pure `allow` (which touches no state in the source), and
only `reset` zeroes it. -/
theorem circuitBreaker_allow_iff (cb : CircuitBreaker) (now : Int) :
    (cb.allow now = false ↔
      cb.failureThreshold ≤ cb.failures ∧ now - cb.lastFailureTime < cb.recoveryTime) ∧
    (cb.recoveryTime ≤ now - cb.lastFailureTime → cb.allow now = true) ∧
    (cb.recordFailure now).failures = cb.failures + 1 ∧
    cb.failures ≤ (cb.recordFailure now).failures ∧
    (cb.recordFailure now).lastFailureTime = now ∧
    cb.reset.failures = 0 ∧
    cb.reset.lastFailureTime = cb.lastFailureTime := by
  refine ⟨?_, ?_, rfl, Nat.le_succ cb.failures, rfl, rfl, rfl⟩
  · unfold CircuitBreaker.allow
    split
    next h => simp [h]
    next h => simp [h]
  · intro h
    unfold CircuitBreaker.allow
    rw [if_neg fun hc => absurd hc.2 (not_lt.mpr h)]

/-- Witness for C4 at a concrete breaker: five failures (past the
threshold of three) but a fully elapsed cooldown, so `allow` admits. -/
theorem circuitBreaker_allow_iff_witness :
    ((⟨3, 10000, 5, 0⟩ : CircuitBreaker).recoveryTime ≤ 10000 - (0 : Int)) ∧
    CircuitBreaker.allow ⟨3, 10000, 5, 0⟩ 10000 = true :=
  ⟨by decide, (circuitBreaker_allow_iff ⟨3, 10000, 5, 0⟩ 10000).2.1 (by decide)⟩

/-- C7: every completed `send` call, on every path, writes a status record
for `id` equal to the outcome it returns, so `getStatus id` immediately
after `send` returns exactly the returned outcome and no request completes
without a status record. -/
theorem send_records_status (s : EmailService) (email id : String)
    (now retries delay : Int) :
    (s.send email id now retries delay).service.getStatus id =
      some (s.send email id now retries delay).status := by
  cases hb : (s.rateLimiter.allow now).1 with
  | false =>
    rw [send_eq_rate s email id now retries delay hb]
    exact getStatus_cons_self _ id "Rate limited" s.statusLog rfl
  | true =>
    by_cases hid : id ∈ s.sentEmails
    · rw [send_eq_dup s email id now retries delay hb hid]
      exact getStatus_cons_self _ id "Duplicate skipped" s.statusLog rfl
    · cases ho : (tryProviders email now retries delay s.providers s.circuitBreakers).outcome with
      | some nm =>
        rw [send_eq_sent s email id now retries delay nm hb hid ho]
        exact getStatus_cons_self _ id ("Sent via " ++ nm) s.statusLog rfl
      | none =>
        rw [send_eq_allFailed s email id now retries delay hb hid ho]
        exact getStatus_cons_self _ id "All providers failed" s.statusLog rfl

/-- Counterexample for C8: the source constructor accepts an empty provider
list without raising anything, and a `send` call on the resulting instance
is reached and returns the all-failed outcome — contradicting the claim
that such construction fails immediately and that no `send` call is ever
reached. -/
theorem emptyProviders_construction_cex :
    (EmailService.init []).providers = [] ∧
    ((EmailService.init []).send "a@b.com" "id0" 0 3 500).status = "All providers failed" :=
  ⟨rfl, rfl⟩

/-- C8 (amended): the constructor performs no validation, so constructing
with an empty provider list succeeds, and every `send` on such an instance
returns (and records) the all-failed outcome — the misconfiguration
surfaces only there, not at construction time. -/
theorem emptyProviders_send_all_failed (email id : String) (now retries delay : Int) :
    ((EmailService.init []).send email id now retries delay).status = "All providers failed" ∧
    ((EmailService.init []).send email id now retries delay).service.getStatus id =
      some "All providers failed" := by
  have hb : ((EmailService.init []).rateLimiter.allow now).1 = true := by
    rw [RateLimiter.allow_eq]
    simp [EmailService.init]
  have hid : id ∉ (EmailService.init []).sentEmails := by
    simp [EmailService.init]
  have ho : (tryProviders email now retries delay (EmailService.init []).providers
      (EmailService.init []).circuitBreakers).outcome = none := rfl
  rw [send_eq_allFailed (EmailService.init []) email id now retries delay hb hid ho]
  exact ⟨rfl, getStatus_cons_self _ id "All providers failed" (EmailService.init []).statusLog rfl⟩

/-- Counterexample for C3: the source's `allow` drops a timestamp that is
exactly `interval` old (here `ts = 0`, `now = 10`, `interval = 10`) and
therefore admits, while the claim's pruning rule — drop only timestamps
strictly older than `now - interval` — would retain it and reject. -/
theorem rateLimiter_prune_boundary_cex :
    (RateLimiter.allow ⟨1, 10, [0]⟩ 10).1 = true ∧
    (RateLimiter.allowClaimed ⟨1, 10, [0]⟩ 10).1 = false :=
  ⟨rfl, rfl⟩

/-- C3 (amended): `allow()` drops exactly the timestamps at least `interval`
old (`now - t ≥ interval`), returns true and appends `now` exactly when
fewer than `limit` remain (false otherwise, without appending, changing no
configuration); consequently, starting from an empty window, a sequence of
calls lying pairwise within one window admits exactly the first `limit`
ones and rejects the rest — in particular the `(N+1)`-th call of a window
is rejected and a rejected call consumes no capacity — and once every
recorded timestamp is at least `interval` old a subsequent call is
admitted. -/
theorem rateLimiter_allow_characterization (rl : RateLimiter) (now : Int) :
    ((rl.allow now).1 =
      decide ((rl.timestamps.filter fun t => now - t < rl.interval).length < rl.limit)) ∧
    ((rl.allow now).2.timestamps =
      if (rl.timestamps.filter fun t => now - t < rl.interval).length < rl.limit then
        (rl.timestamps.filter fun t => now - t < rl.interval) ++ [now]
      else
        rl.timestamps.filter fun t => now - t < rl.interval) ∧
    ((rl.allow now).2.limit = rl.limit ∧ (rl.allow now).2.interval = rl.interval) ∧
    (∀ (N : Nat) (W : Int) (times : List Int),
      (∀ a ∈ times, ∀ b ∈ times, a - b < W) →
      runAllows ⟨N, W, []⟩ times =
        (List.range times.length).map fun k => decide (k < N)) ∧
    ((∀ t ∈ rl.timestamps, rl.interval ≤ now - t) → 0 < rl.limit → (rl.allow now).1 = true) := by
  refine ⟨by simp [RateLimiter.allow_eq], by simp [RateLimiter.allow_eq],
    ⟨by simp [RateLimiter.allow_eq], by simp [RateLimiter.allow_eq]⟩, ?_, ?_⟩
  · intro N W times hall
    have h := runAllows_invariant N W times [] (by simp) hall
    simpa using h
  · intro hold hlim
    have hfe : (rl.timestamps.filter fun t => now - t < rl.interval) = [] := by
      rw [List.filter_eq_nil_iff]
      intro a ha
      simpa using not_lt.mpr (hold a ha)
    rw [RateLimiter.allow_eq]
    simp [hfe, hlim]

/-- Witness for C3's amended theorem: limiter `(limit 2, interval 10)` on
calls at times 0, 3, 5 admits the first two and rejects the third; a
limiter full with one timestamp aged exactly two windows admits again. -/
theorem rateLimiter_allow_characterization_witness :
    (∀ a ∈ ([0, 3, 5] : List Int), ∀ b ∈ ([0, 3, 5] : List Int), a - b < 10) ∧
    runAllows ⟨2, 10, []⟩ [0, 3, 5] = [true, true, false] ∧
    (∀ t ∈ ([0] : List Int), (10 : Int) ≤ 20 - t) ∧ 0 < 1 ∧
    (RateLimiter.allow ⟨1, 10, [0]⟩ 20).1 = true := by
  refine ⟨by decide, ?_, by decide, by decide, ?_⟩
  · have h := (rateLimiter_allow_characterization ⟨2, 10, []⟩ 0).2.2.2.1 2 10
      [0, 3, 5] (by decide)
    rw [h]
    rfl
  · exact (rateLimiter_allow_characterization ⟨1, 10, [0]⟩ 20).2.2.2.2
      (by decide) (by decide)

/-- C9: a `send` whose id was already sent and which passes the rate
limiter invokes no provider and leaves every breaker and the sent set
unchanged, but consumes one rate-limiter slot (the timestamp is appended
before the duplicate check) and overwrites the stored status for the id
with the duplicate outcome. -/
theorem send_duplicate_frame (s : EmailService) (email id : String)
    (now retries delay : Int)
    (hgate : (s.rateLimiter.allow now).1 = true)
    (hid : id ∈ s.sentEmails) :
    (s.send email id now retries delay).status = "Duplicate skipped" ∧
    (s.send email id now retries delay).calls = s.providers.map (fun _ => 0) ∧
    (s.send email id now retries delay).service.circuitBreakers = s.circuitBreakers ∧
    (s.send email id now retries delay).service.sentEmails = s.sentEmails ∧
    (s.send email id now retries delay).service.rateLimiter.timestamps =
      (s.rateLimiter.timestamps.filter fun t => now - t < s.rateLimiter.interval) ++ [now] ∧
    (s.send email id now retries delay).service.getStatus id = some "Duplicate skipped" := by
  have hc : (s.rateLimiter.timestamps.filter fun t =>
      now - t < s.rateLimiter.interval).length < s.rateLimiter.limit := by
    have h := hgate
    rw [RateLimiter.allow_eq] at h
    simpa using h
  have hts : (s.rateLimiter.allow now).2.timestamps =
      (s.rateLimiter.timestamps.filter fun t => now - t < s.rateLimiter.interval) ++ [now] := by
    rw [RateLimiter.allow_eq]
    simp [hc]
  rw [send_eq_dup s email id now retries delay hgate hid]
  exact ⟨rfl, rfl, rfl, rfl, hts,
    getStatus_cons_self _ id "Duplicate skipped" s.statusLog rfl⟩

/-- C5: with `retries ≥ 1`, `retryWithBackoff` invokes `fn` at most
`retries` times; the first success short-circuits immediately with no
further delay; the waits between consecutive invocations are
`delay * 2 ^ k` for `k = 1, 2, ...`, strictly increasing when
`delay > 0`; and if every invocation fails the last error is
propagated. -/
theorem retryWithBackoff_spec {α : Type} (fn : Nat → Except String α)
    (retries delay : Int) (h1 : 1 ≤ retries) :
    (retryWithBackoff fn retries delay).calls ≤ retries.toNat ∧
    (∀ (j : Nat) (v : α), (j : Int) < retries →
      (∀ i, i < j → isErr (fn i) = true) → fn j = .ok v →
      retryWithBackoff fn retries delay =
        ⟨.ok (some v), j + 1, (List.range j).map fun k => delay * 2 ^ (k + 1)⟩) ∧
    ((∀ i : Nat, (i : Int) < retries → isErr (fn i) = true) →
      ∃ e, fn (retries.toNat - 1) = .error e ∧
        retryWithBackoff fn retries delay =
          ⟨.error e, retries.toNat,
           (List.range (retries.toNat - 1)).map fun k => delay * 2 ^ (k + 1)⟩) ∧
    (0 < delay → (retryWithBackoff fn retries delay).delays.Chain' (· < ·)) := by
  refine ⟨retryGo_calls_le fn delay retries.toNat 0, ?_, ?_, ?_⟩
  · intro j v hj hpre hok
    have hj' : j < retries.toNat := by omega
    have h := retryGo_success fn delay v j 0 retries.toNat hj'
      (fun i hi => by simpa using hpre i hi) (by simpa using hok)
    rw [retryWithBackoff, h]
    refine congrArg (RetryResult.mk (.ok (some v)) (j + 1)) ?_
    refine List.map_congr_left fun k _ => ?_
    congr 2
    omega
  · intro hall
    obtain ⟨e, he, hrun⟩ := retryGo_all_fail fn delay retries.toNat 0 (by omega)
      (fun i hi => by
        have hi' : (i : Int) < retries := by omega
        simpa using hall i hi')
    refine ⟨e, by simpa using he, ?_⟩
    rw [retryWithBackoff, hrun]
    refine congrArg (RetryResult.mk (.error e) retries.toNat) ?_
    refine List.map_congr_left fun k _ => ?_
    congr 2
    omega
  · intro hd
    obtain ⟨m, hm⟩ := retryGo_delays_shape fn delay retries.toNat 0
    rw [retryWithBackoff, hm]
    exact delays_chain_lt delay hd 0 m

/-- Witness for C5: a function failing once then succeeding, two retries,
base delay 500: two invocations, one delay of 1000, success returned. -/
theorem retryWithBackoff_spec_witness :
    (1 : Int) ≤ 2 ∧
    (retryWithBackoff (fun i => if i = 0 then (.error "boom" : Except String String)
        else .ok "done") 2 500).calls ≤ (2 : Int).toNat ∧
    retryWithBackoff (fun i => if i = 0 then (.error "boom" : Except String String)
        else .ok "done") 2 500 = ⟨.ok (some "done"), 2, [1000]⟩ ∧
    (retryWithBackoff (fun i => if i = 0 then (.error "boom" : Except String String)
        else .ok "done") 2 500).delays.Chain' (· < ·) := by
  have h := retryWithBackoff_spec
    (fun i => if i = 0 then (.error "boom" : Except String String) else .ok "done")
    2 500 (by decide)
  refine ⟨by decide, h.1, ?_, h.2.2.2 (by decide)⟩
  have h2 := h.2.1 1 "done" (by decide)
    (fun i hi => by
      have h0 : i = 0 := by omega
      subst h0
      rfl)
    rfl
  rw [h2]
  rfl

/-- C6: for every state satisfying the constructor's invariant (one breaker
per provider) and every provider behaviour — including providers that
throw on every invocation — `send` never propagates an exception: it is
total and returns one of the four terminal outcome values. -/
theorem send_total_outcomes (s : EmailService) (email id : String)
    (now retries delay : Int)
    (hlen : s.circuitBreakers.length = s.providers.length) :
    (s.send email id now retries delay).status = "Rate limited" ∨
    (s.send email id now retries delay).status = "Duplicate skipped" ∨
    (∃ p ∈ s.providers, (s.send email id now retries delay).status = "Sent via " ++ p.name) ∨
    (s.send email id now retries delay).status = "All providers failed" := by
  cases hb : (s.rateLimiter.allow now).1 with
  | false => exact Or.inl (by rw [send_eq_rate s email id now retries delay hb])
  | true =>
    by_cases hid : id ∈ s.sentEmails
    · exact Or.inr (Or.inl (by rw [send_eq_dup s email id now retries delay hb hid]))
    · cases ho : (tryProviders email now retries delay s.providers s.circuitBreakers).outcome with
      | some nm =>
        refine Or.inr (Or.inr (Or.inl ?_))
        obtain ⟨p, hp, hnm⟩ := tryProviders_outcome_names email now retries delay nm
          s.providers s.circuitBreakers ho
        exact ⟨p, hp, by rw [send_eq_sent s email id now retries delay nm hb hid ho, hnm]⟩
      | none =>
        exact Or.inr (Or.inr (Or.inr
          (by rw [send_eq_allFailed s email id now retries delay hb hid ho])))

/-- Witness for C6 at the two-provider sample service. -/
theorem send_total_outcomes_witness :
    svcAB.circuitBreakers.length = svcAB.providers.length ∧
    ((svcAB.send "e" "i" 0 3 500).status = "Rate limited" ∨
     (svcAB.send "e" "i" 0 3 500).status = "Duplicate skipped" ∨
     (∃ p ∈ svcAB.providers, (svcAB.send "e" "i" 0 3 500).status = "Sent via " ++ p.name) ∨
     (svcAB.send "e" "i" 0 3 500).status = "All providers failed") :=
  ⟨rfl, send_total_outcomes svcAB "e" "i" 0 3 500 rfl⟩

/-- C10: with `retries ≤ 0` the `while` loop body of `retryWithBackoff`
never runs — `fn` is not invoked, nothing is raised, and the call resolves
with `undefined` (`.ok none`) — and a `send` under such a configuration
treats the first admitted provider as a success: it returns the sent
outcome, records it, marks the id as sent and resets that provider's
breaker, with zero provider invocations. -/
theorem retry_nonpositive_success {α : Type} (fn : Nat → Except String α)
    (s : EmailService) (email id : String) (now retries delay : Int)
    (p : Provider) (cb : CircuitBreaker) (ps : List Provider) (cbs : List CircuitBreaker)
    (hr : retries ≤ 0)
    (hprov : s.providers = p :: ps) (hcb : s.circuitBreakers = cb :: cbs)
    (hgate : (s.rateLimiter.allow now).1 = true) (hid : id ∉ s.sentEmails)
    (hallow : cb.allow now = true) :
    retryWithBackoff fn retries delay = ⟨.ok none, 0, []⟩ ∧
    (s.send email id now retries delay).status = "Sent via " ++ p.name ∧
    (s.send email id now retries delay).calls = 0 :: ps.map (fun _ => 0) ∧
    id ∈ (s.send email id now retries delay).service.sentEmails ∧
    (s.send email id now retries delay).service.circuitBreakers = cb.reset :: cbs ∧
    (s.send email id now retries delay).service.getStatus id =
      some ("Sent via " ++ p.name) := by
  have hzero : retries.toNat = 0 := by omega
  have hretryP : retryWithBackoff (p.sendEmail email) retries delay = ⟨.ok none, 0, []⟩ := by
    rw [retryWithBackoff, hzero]
    rfl
  have htry : tryProviders email now retries delay s.providers s.circuitBreakers =
      ⟨some p.name, cb.reset :: cbs,
       (retryWithBackoff (p.sendEmail email) retries delay).calls :: ps.map fun _ => 0⟩ := by
    rw [hprov, hcb]
    exact tryProviders_ok email now retries delay p cb ps cbs none hallow (by rw [hretryP])
  have ho : (tryProviders email now retries delay s.providers s.circuitBreakers).outcome
      = some p.name := by rw [htry]
  rw [send_eq_sent s email id now retries delay p.name hgate hid ho]
  refine ⟨by rw [retryWithBackoff, hzero]; rfl, rfl, ?_, List.mem_cons_self id s.sentEmails, ?_,
    getStatus_cons_self _ id ("Sent via " ++ p.name) s.statusLog rfl⟩
  · rw [htry]
    simp only
    rw [hretryP]
  · rw [htry]

/-- Witness for C10: the sample one-provider service with `retries = 0`
returns the sent outcome with zero provider invocations. -/
theorem retry_nonpositive_success_witness :
    (0 : Int) ≤ 0 ∧ svcB.providers = provB :: [] ∧
    svcB.circuitBreakers = CircuitBreaker.init :: [] ∧
    (svcB.rateLimiter.allow 0).1 = true ∧ "i" ∉ svcB.sentEmails ∧
    CircuitBreaker.allow CircuitBreaker.init 0 = true ∧
    retryWithBackoff (fun _ => (.error "always" : Except String String)) 0 500
      = ⟨.ok none, 0, []⟩ ∧
    (svcB.send "e" "i" 0 0 500).status = "Sent via " ++ provB.name ∧
    (svcB.send "e" "i" 0 0 500).calls = 0 :: ([] : List Provider).map (fun _ => 0) ∧
    "i" ∈ (svcB.send "e" "i" 0 0 500).service.sentEmails ∧
    (svcB.send "e" "i" 0 0 500).service.circuitBreakers
      = CircuitBreaker.reset CircuitBreaker.init :: [] ∧
    (svcB.send "e" "i" 0 0 500).service.getStatus "i" =
      some ("Sent via " ++ provB.name) := by
  have h := retry_nonpositive_success (fun _ => (.error "always" : Except String String))
    svcB "e" "i" 0 0 500 provB CircuitBreaker.init [] []
    (by decide) rfl rfl (by decide) (by decide) (by decide)
  exact ⟨by decide, rfl, rfl, by decide, by decide, by decide,
    h.1, h.2.1, h.2.2.1, h.2.2.2.1, h.2.2.2.2.1, h.2.2.2.2.2⟩

/-- C2: `send` tries providers in list order, skipping any whose breaker
disallows; the first provider whose retried call succeeds determines the
outcome `Sent via <name>`, has its breaker failure count zeroed, and no
later provider is invoked; each provider that exhausted its retries before
that point has its breaker failure count incremented by exactly 1, and
skipped providers' breakers are untouched. -/
theorem send_fallback_first_success (s : EmailService) (email id : String)
    (now retries delay : Int)
    (pre : List (Provider × CircuitBreaker)) (p : Provider) (cb : CircuitBreaker)
    (post : List Provider) (cbs2 : List CircuitBreaker)
    (hprov : s.providers = pre.map Prod.fst ++ p :: post)
    (hcb : s.circuitBreakers = pre.map Prod.snd ++ cb :: cbs2)
    (hgate : (s.rateLimiter.allow now).1 = true)
    (hid : id ∉ s.sentEmails)
    (hpre : ∀ pc ∈ pre, skippedOrFailed email now retries delay pc.1 pc.2)
    (hcbAllow : cb.allow now = true)
    (hok : isErr (retryWithBackoff (p.sendEmail email) retries delay).result = false) :
    (s.send email id now retries delay).status = "Sent via " ++ p.name ∧
    (s.send email id now retries delay).service.circuitBreakers =
      pre.map (fun pc => stepBreaker now pc.2) ++ cb.reset :: cbs2 ∧
    cb.reset.failures = 0 ∧
    (∀ pc ∈ pre, triedAndFailed email now retries delay pc.1 pc.2 →
      (stepBreaker now pc.2).failures = pc.2.failures + 1) ∧
    (∀ pc ∈ pre, pc.2.allow now = false → stepBreaker now pc.2 = pc.2) ∧
    (s.send email id now retries delay).calls =
      pre.map (fun pc => callsOf email now retries delay pc.1 pc.2) ++
        (retryWithBackoff (p.sendEmail email) retries delay).calls :: post.map fun _ => 0 := by
  have htry : tryProviders email now retries delay s.providers s.circuitBreakers =
      ⟨some p.name,
       pre.map (fun pc => stepBreaker now pc.2) ++ cb.reset :: cbs2,
       pre.map (fun pc => callsOf email now retries delay pc.1 pc.2) ++
         (retryWithBackoff (p.sendEmail email) retries delay).calls ::
           post.map fun _ => 0⟩ := by
    rw [hprov, hcb]
    exact tryProviders_first_success email now retries delay pre p cb post cbs2
      hpre hcbAllow hok
  have ho : (tryProviders email now retries delay s.providers s.circuitBreakers).outcome
      = some p.name := by rw [htry]
  rw [send_eq_sent s email id now retries delay p.name hgate hid ho]
  refine ⟨rfl, by rw [htry], rfl, ?_, ?_, by rw [htry]⟩
  · intro pc hpc htf
    simp [stepBreaker, htf.1, CircuitBreaker.recordFailure]
  · intro pc hpc hfalse
    simp [stepBreaker, hfalse]

/-- Witness for C2 at the sample service with A always failing and B always
succeeding: the outcome names B, A's breaker gains exactly one failure and
B's stays at zero. -/
theorem send_fallback_first_success_witness :
    svcAB.providers = [(provA, CircuitBreaker.init)].map Prod.fst ++ provB :: [] ∧
    svcAB.circuitBreakers
      = [(provA, CircuitBreaker.init)].map Prod.snd ++ CircuitBreaker.init :: [] ∧
    (svcAB.rateLimiter.allow 0).1 = true ∧ "i" ∉ svcAB.sentEmails ∧
    (∀ pc ∈ [(provA, CircuitBreaker.init)], skippedOrFailed "e" 0 3 500 pc.1 pc.2) ∧
    CircuitBreaker.allow CircuitBreaker.init 0 = true ∧
    isErr (retryWithBackoff (provB.sendEmail "e") 3 500).result = false ∧
    (svcAB.send "e" "i" 0 3 500).status = "Sent via " ++ provB.name ∧
    (svcAB.send "e" "i" 0 3 500).service.circuitBreakers =
      [(provA, CircuitBreaker.init)].map (fun pc => stepBreaker 0 pc.2) ++
        CircuitBreaker.reset CircuitBreaker.init :: [] ∧
    (svcAB.send "e" "i" 0 3 500).service.circuitBreakers
      = [⟨3, 10000, 1, 0⟩, ⟨3, 10000, 0, 0⟩] ∧
    (svcAB.send "e" "i" 0 3 500).calls =
      [(provA, CircuitBreaker.init)].map (fun pc => callsOf "e" 0 3 500 pc.1 pc.2) ++
        (retryWithBackoff (provB.sendEmail "e") 3 500).calls ::
          ([] : List Provider).map fun _ => 0 := by
  have h := send_fallback_first_success svcAB "e" "i" 0 3 500
    [(provA, CircuitBreaker.init)] provB CircuitBreaker.init [] []
    rfl rfl (by decide) (by decide) (by decide) (by decide) (by decide)
  exact ⟨rfl, rfl, by decide, by decide, by decide, by decide, by decide,
    h.1, h.2.1, by decide, h.2.2.2.2.2⟩

/-- C1: if a `send` for `id` returns the success outcome, then any later
`send` with the same `id` — after any sequence of intervening calls — that
is not rejected by the rate limiter returns the duplicate outcome with
zero provider invocations, so an id never causes two successful provider
invocations across a sequential sequence of calls. -/
theorem send_success_then_duplicate (s : EmailService) (email id : String)
    (now retries delay : Int) (nm : String)
    (hsucc : (s.send email id now retries delay).status = "Sent via " ++ nm)
    (ops : List SendCall) (email2 : String) (now2 retries2 delay2 : Int)
    (hgate : ((runSends (s.send email id now retries delay).service ops).rateLimiter.allow
        now2).1 = true) :
    ((runSends (s.send email id now retries delay).service ops).send
        email2 id now2 retries2 delay2).status = "Duplicate skipped" ∧
    ((runSends (s.send email id now retries delay).service ops).send
        email2 id now2 retries2 delay2).calls =
      (runSends (s.send email id now retries delay).service ops).providers.map fun _ => 0 := by
  have hmem := send_success_mem s email id now retries delay nm hsucc
  have hmem2 := runSends_sent_mono id ops _ hmem
  rw [send_eq_dup _ email2 id now2 retries2 delay2 hgate hmem2]
  exact ⟨rfl, rfl⟩

/-- Witness for C1: after a successful send of id `"i"`, a later send with
the same id (admitted by the limiter) returns the duplicate outcome and
invokes no provider. -/
theorem send_success_then_duplicate_witness :
    (svcB.send "e" "i" 0 3 500).status = "Sent via " ++ "B" ∧
    ((runSends (svcB.send "e" "i" 0 3 500).service []).rateLimiter.allow 5).1 = true ∧
    ((runSends (svcB.send "e" "i" 0 3 500).service []).send "f" "i" 5 3 500).status
      = "Duplicate skipped" ∧
    ((runSends (svcB.send "e" "i" 0 3 500).service []).send "f" "i" 5 3 500).calls =
      (runSends (svcB.send "e" "i" 0 3 500).service []).providers.map fun _ => 0 := by
  have h := send_success_then_duplicate svcB "e" "i" 0 3 500 "B" (by decide)
    [] "f" 5 3 500 (by decide)
  exact ⟨by decide, by decide, h.1, h.2⟩

/-- Witness for C9 at a concrete service whose id `"i"` is already sent. -/
theorem send_duplicate_frame_witness :
    (svcDup.rateLimiter.allow 0).1 = true ∧ "i" ∈ svcDup.sentEmails ∧
    (svcDup.send "e" "i" 0 3 500).status = "Duplicate skipped" ∧
    (svcDup.send "e" "i" 0 3 500).calls = svcDup.providers.map (fun _ => 0) ∧
    (svcDup.send "e" "i" 0 3 500).service.circuitBreakers = svcDup.circuitBreakers ∧
    (svcDup.send "e" "i" 0 3 500).service.sentEmails = svcDup.sentEmails ∧
    (svcDup.send "e" "i" 0 3 500).service.rateLimiter.timestamps =
      (svcDup.rateLimiter.timestamps.filter fun t =>
        0 - t < svcDup.rateLimiter.interval) ++ [0] ∧
    (svcDup.send "e" "i" 0 3 500).service.getStatus "i" = some "Duplicate skipped" := by
  have h := send_duplicate_frame svcDup "e" "i" 0 3 500 (by decide) (by decide)
  exact ⟨by decide, by decide, h.1, h.2.1, h.2.2.1, h.2.2.2.1, h.2.2.2.2.1, h.2.2.2.2.2⟩
